import Mathlib

/-!
# Verification of `iucollections::ConcurrentQueue<T>`

Shallow embedding of `include/iucollections/concurrentqueue.hpp`
(a fixed-capacity circular-buffer FIFO queue).

Modelling choices:
* `std::size_t` arithmetic is modelled on `Nat`; `SIZE_MAX = 2^64 - 1` is the
  maximum representable value.  The source never overflows a `size_t` under
  the queue invariant, so plain `Nat` arithmetic is exact wherever it is used.
* Heap memory is modelled explicitly, because the source manages a raw
  `T * items` array with `new[]`/`delete[]` and the copy/move operations are
  about ownership and aliasing of that array.  A `Heap T` is a list of blocks;
  a block is `Option (List T)` (`none` = freed).  `new T[n]` appends a fresh
  block of `n` default-initialised elements (the allocator never reuses
  addresses; a pointer is the block's index).  Reading a freed block or past
  the end of a block returns `none` (undefined behaviour in C++); writing
  there is a no-op.
* Each C++ member function that mutates under the lock becomes a pure
  function from `(Heap, queue-record)` to `(Heap, queue-record, Option error)`;
  a `throw` returns the state unchanged together with the thrown exception,
  exactly as the C++ code throws before mutating anything.  The per-instance
  mutex serialises operations, so the sequential semantics embedded here is
  the behaviour of each (linearizable) operation.
* Exceptions keep their C++ dynamic type and message.
-/

/-- Maximum value of `std::size_t` (64-bit platform), i.e. `SIZE_MAX`. -/
def SIZE_MAX : Nat := 2 ^ 64 - 1

/-- A C++ exception as thrown by the source: its dynamic type and message. -/
inductive CppError where
  | underflow_error (msg : String) : CppError
  | overflow_error (msg : String) : CppError
deriving DecidableEq, Repr

/-- The `InvalidCapacity` failure: the exact exception the constructor throws
for capacity 0. -/
def invalidCapacityError : CppError :=
  .underflow_error
    "iucollections::ConcurrentQueue<T> instance cannot have a capacity of 0 items!"

/-- The `Full` failure: the exact exception both `push` overloads throw. -/
def fullError : CppError :=
  .overflow_error "iucollections::ConcurrentQueue<T> instance is full!"

/-- The `Empty` failure: the exact exception `pop` throws. -/
def emptyError : CppError :=
  .underflow_error "iucollections::ConcurrentQueue<T> instance is empty!"

/-- Heap memory: a list of blocks, each `some data` (live) or `none` (freed).
A pointer is an index into this list; allocation appends, so addresses are
never reused. -/
structure Heap (T : Type) where
  blocks : List (Option (List T))
deriving DecidableEq, Repr

namespace Heap

/-- The empty heap. -/
def init : Heap T := ⟨[]⟩

/-- `new T[n]`: allocate a block of `n` default-initialised elements, returning
the new heap and the pointer to the block. -/
def alloc (h : Heap T) (n : Nat) (d : T) : Heap T × Nat :=
  (⟨h.blocks ++ [some (List.replicate n d)]⟩, h.blocks.length)

/-- `delete [] p`: mark the block at `p` freed. -/
def free (h : Heap T) (p : Nat) : Heap T :=
  ⟨h.blocks.set p none⟩

/-- Read `p[i]`; `none` when the block is freed, unallocated, or `i` is out of
range (undefined behaviour in the C++ source). -/
def read (h : Heap T) (p i : Nat) : Option T :=
  match h.blocks[p]? with
  | some (some blk) => blk[i]?
  | _ => none

/-- Write `p[i] = v`; a no-op on a freed/unallocated block or out of range
(undefined behaviour in the C++ source). -/
def write (h : Heap T) (p i : Nat) (v : T) : Heap T :=
  match h.blocks[p]? with
  | some (some blk) => ⟨h.blocks.set p (some (blk.set i v))⟩
  | _ => h

end Heap

/-- The data members of `ConcurrentQueue<T>` (the mutex is the lock discipline,
not data; it serialises the operations embedded below). `items` is the pointer
to the storage block. -/
structure ConcurrentQueue where
  items : Nat
  capacity_ : Nat
  size_ : Nat
  front : Nat
  back : Nat
deriving DecidableEq, Repr

namespace ConcurrentQueue

/-- `safe_increment(value)`:
```cpp
if (value == SIZE_MAX) value = 0;
value = (value + 1) % this->capacity_;
```
Returns the new value of the by-reference argument. -/
def safe_increment (capacity_ : Nat) (value : Nat) : Nat :=
  let value := if value = SIZE_MAX then 0 else value
  (value + 1) % capacity_

/-- `ConcurrentQueue(const std::size_t capacity)`: throws for capacity 0,
otherwise `size_ = 0`, `front = 0`, `back = capacity - 1`,
`items = new T[capacity]`. -/
def construct (h : Heap T) (d : T) (capacity : Nat) :
    Except CppError (Heap T × ConcurrentQueue) :=
  if capacity = 0 then
    .error invalidCapacityError
  else
    let (h', p) := h.alloc capacity d
    .ok (h', ⟨p, capacity, 0, 0, capacity - 1⟩)

/-- The element-by-element `for` loop shared by the copy operations and the
move constructor: `this->items[i] = queue.items[i]` for `i < n` (for the move
constructor the right-hand side is `std::move(queue.items[i])`, which reads
the same value). `dst` and `src` are the two `items` pointers. -/
def copyLoop (h : Heap T) (dst src : Nat) : Nat → Heap T
  | 0 => h
  | n + 1 =>
    let h' := copyLoop h dst src n
    match h'.read src n with
    | some v => h'.write dst n v
    | none => h'

/-- `ConcurrentQueue(const ConcurrentQueue & queue)`: allocate a fresh block of
`queue.capacity_` elements, copy the four scalar fields, then copy the storage
element by element. Returns the heap and the newly constructed queue. -/
def copyConstruct (h : Heap T) (d : T) (queue : ConcurrentQueue) :
    Heap T × ConcurrentQueue :=
  let (h1, p) := h.alloc queue.capacity_ d
  let h2 := copyLoop h1 p queue.items queue.capacity_
  (h2, ⟨p, queue.capacity_, queue.size_, queue.front, queue.back⟩)

/-- `ConcurrentQueue(ConcurrentQueue && queue)`: allocates a fresh block,
copies the scalar fields, moves the elements one by one, then
`delete [] queue.items` — the source record itself is left untouched (its
`items` pointer now dangles). Returns `(heap, new queue, source after)`. -/
def moveConstruct (h : Heap T) (d : T) (queue : ConcurrentQueue) :
    Heap T × ConcurrentQueue × ConcurrentQueue :=
  let (h1, p) := h.alloc queue.capacity_ d
  let h2 := copyLoop h1 p queue.items queue.capacity_
  let h3 := h2.free queue.items
  (h3, ⟨p, queue.capacity_, queue.size_, queue.front, queue.back⟩, queue)

/-- `operator=(const ConcurrentQueue & queue)` for distinct objects (the
`this == &queue` self-assignment test fails): `delete [] this->items`,
allocate a fresh block, copy fields, copy elements. Returns the heap and the
assigned-to object. -/
def copyAssign (h : Heap T) (d : T) (this queue : ConcurrentQueue) :
    Heap T × ConcurrentQueue :=
  let h0 := h.free this.items
  let (h1, p) := h0.alloc queue.capacity_ d
  let h2 := copyLoop h1 p queue.items queue.capacity_
  (h2, ⟨p, queue.capacity_, queue.size_, queue.front, queue.back⟩)

/-- `operator=(ConcurrentQueue && queue)` for distinct objects:
`delete [] this->items`, then steal the source's pointer and scalar fields;
the source record is left untouched (it still holds the same `items`
pointer). Returns `(heap, assigned-to object, source after)`. -/
def moveAssign (h : Heap T) (this queue : ConcurrentQueue) :
    Heap T × ConcurrentQueue × ConcurrentQueue :=
  let h0 := h.free this.items
  (h0, ⟨queue.items, queue.capacity_, queue.size_, queue.front, queue.back⟩, queue)

/-- `size()`: returns `this->size_`. -/
def size (q : ConcurrentQueue) : Nat := q.size_

/-- `capacity()`: returns `this->capacity_`. -/
def capacity (q : ConcurrentQueue) : Nat := q.capacity_

/-- `empty()`: under lock, `this->size_ == 0`. -/
def isEmpty (q : ConcurrentQueue) : Bool := q.size_ == 0

/-- `full()`: under lock, `this->size_ == this->capacity_`. -/
def full (q : ConcurrentQueue) : Bool := q.size_ == q.capacity_

/-- `peek_front()`: under lock, `return this->items[front];` — no emptiness
check; the returned reference denotes the value read from slot `front`. -/
def peek_front (h : Heap T) (q : ConcurrentQueue) : Option T :=
  h.read q.items q.front

/-- `peek_back()`: under lock, `return this->items[back];` — no emptiness
check. -/
def peek_back (h : Heap T) (q : ConcurrentQueue) : Option T :=
  h.read q.items q.back

/-- `push(item)` (both the copy and the move overload write the same value):
under lock, throws `Full` when `size_ == capacity_` leaving all state
unchanged; otherwise `safe_increment(back)`, `items[back] = item`, `++size_`.
Returns `(heap, queue, thrown exception if any)`. -/
def push (h : Heap T) (q : ConcurrentQueue) (item : T) :
    Heap T × ConcurrentQueue × Option CppError :=
  if q.size_ = q.capacity_ then
    (h, q, some fullError)
  else
    let back' := safe_increment q.capacity_ q.back
    (h.write q.items back' item,
     ⟨q.items, q.capacity_, q.size_ + 1, q.front, back'⟩, none)

/-- `pop()`: under lock, throws `Empty` when `size_ == 0` leaving all state
unchanged; otherwise records `items[front]`, `safe_increment(front)`,
`--size_`, and returns the recorded reference (the value it denotes at return
time). Returns `(returned value, heap, queue, thrown exception if any)`. -/
def pop (h : Heap T) (q : ConcurrentQueue) :
    Option T × Heap T × ConcurrentQueue × Option CppError :=
  if q.size_ = 0 then
    (none, h, q, some emptyError)
  else
    (h.read q.items q.front, h,
     ⟨q.items, q.capacity_, q.size_ - 1, safe_increment q.capacity_ q.front, q.back⟩,
     none)

end ConcurrentQueue

namespace ConcurrentQueue

/-- Push a whole list of values in order, stopping at the first thrown
exception (a C++ `throw` aborts the calling sequence). -/
def pushAll : List T → Heap T → ConcurrentQueue →
    Heap T × ConcurrentQueue × Option CppError
  | [], h, q => (h, q, none)
  | v :: rest, h, q =>
    match push h q v with
    | (h', q', none) => pushAll rest h' q'
    | (h', q', some e) => (h', q', some e)

/-- Pop `k` times, collecting each call's returned value and thrown
exception (if any). -/
def popAll (h : Heap T) (q : ConcurrentQueue) :
    Nat → List (Option T × Option CppError) × Heap T × ConcurrentQueue
  | 0 => ([], h, q)
  | k + 1 =>
    let r := pop h q
    let rest := popAll r.2.1 r.2.2.1 k
    ((r.1, r.2.2.2) :: rest.1, rest.2)

/-- A mutating queue operation, for stating frame properties over arbitrary
operation sequences. -/
inductive QOp (T : Type) where
  | push (v : T) : QOp T
  | pop : QOp T

/-- Run a sequence of push/pop operations on a queue (each call's exception,
if any, is discarded: the caller catches it and continues). -/
def runOps : List (QOp T) → Heap T → ConcurrentQueue → Heap T × ConcurrentQueue
  | [], h, q => (h, q)
  | .push v :: rest, h, q =>
    let r := push h q v
    runOps rest r.1 r.2.1
  | .pop :: rest, h, q =>
    let r := pop h q
    runOps rest r.2.1 r.2.2.1

/-- The bounds invariant of the data members: `front` and `back` lie in
`[0, capacity_)` and `0 ≤ size_ ≤ capacity_`. -/
def BInv (q : ConcurrentQueue) : Prop :=
  q.front < q.capacity_ ∧ q.back < q.capacity_ ∧ q.size_ ≤ q.capacity_

instance (q : ConcurrentQueue) : Decidable (BInv q) := by
  unfold BInv; infer_instance

/-- The queue's `items` pointer addresses a live heap block of exactly
`capacity_` slots. -/
def OwnsBlock (h : Heap T) (q : ConcurrentQueue) : Prop :=
  ∃ blk : List T, h.blocks[q.items]? = some (some blk) ∧ blk.length = q.capacity_

/-- Full representation invariant: bounds, `size_t` range of the capacity,
the circular relation placing `back` exactly `size_` slots after `front`
(minus one, modulo `capacity_`), and ownership of a live block. -/
def Inv (h : Heap T) (q : ConcurrentQueue) : Prop :=
  BInv q ∧ q.capacity_ ≤ SIZE_MAX ∧
  q.back = (q.front + q.size_ + q.capacity_ - 1) % q.capacity_ ∧
  OwnsBlock h q

/-- The abstract FIFO contents: the `size_` values stored at slots
`front, front + 1, …` (mod `capacity_`), oldest first. -/
def absList (h : Heap T) (q : ConcurrentQueue) : List (Option T) :=
  (List.range q.size_).map fun i => h.read q.items ((q.front + i) % q.capacity_)

/-- Everything one can observe of a queue through its public interface
without mutating it: its size and capacity, both peeks, and the whole
FIFO contents (which determines all future pop results). -/
def observ (h : Heap T) (q : ConcurrentQueue) :
    Nat × Nat × Option T × Option T × List (Option T) :=
  (size q, capacity q, peek_front h q, peek_back h q, absList h q)

end ConcurrentQueue
namespace Heap

theorem length_write (h : Heap T) (p i : Nat) (v : T) :
    (h.write p i v).blocks.length = h.blocks.length := by
  unfold write
  split <;> simp

theorem length_free (h : Heap T) (p : Nat) :
    (h.free p).blocks.length = h.blocks.length := by
  simp [free]

theorem length_alloc (h : Heap T) (n : Nat) (d : T) :
    (h.alloc n d).1.blocks.length = h.blocks.length + 1 := by
  simp [alloc]

/-- Writing into one block does not change reads of another block. -/
theorem read_write_ne (h : Heap T) {p p' : Nat} (i j : Nat) (v : T) (hne : p ≠ p') :
    (h.write p i v).read p' j = h.read p' j := by
  unfold write
  split
  · simp [read, List.getElem?_set_ne hne]
  · rfl

/-- Writing one slot does not change reads of a different slot, even within
the same block. -/
theorem read_write_self_ne (h : Heap T) (p : Nat) {i j : Nat} (v : T) (hne : i ≠ j) :
    (h.write p i v).read p j = h.read p j := by
  unfold write
  split
  · next blk heq =>
    obtain ⟨hlt, _⟩ := List.getElem?_eq_some.mp heq
    simp [read, List.getElem?_set_self hlt, heq, List.getElem?_set_ne hne]
  · rfl

/-- Reading back a freshly written slot of a live block. -/
theorem read_write_self {h : Heap T} {p : Nat} {blk : List T}
    (hb : h.blocks[p]? = some (some blk)) {i : Nat} (hi : i < blk.length) (v : T) :
    (h.write p i v).read p i = some v := by
  obtain ⟨hlt, _⟩ := List.getElem?_eq_some.mp hb
  simp only [write, hb, read, List.getElem?_set_self hlt]
  simp [List.getElem?_set_self, hi]

/-- Allocation does not change reads of previously existing pointers. -/
theorem read_alloc_old (h : Heap T) (n : Nat) (d : T) {p : Nat}
    (hp : p < h.blocks.length) (i : Nat) :
    (h.alloc n d).1.read p i = h.read p i := by
  simp [alloc, read, List.getElem?_append, hp]

/-- Reading the freshly allocated block yields the default element inside the
bounds and `none` outside. -/
theorem read_alloc_new (h : Heap T) (n : Nat) (d : T) (i : Nat) :
    (h.alloc n d).1.read (h.alloc n d).2 i = if i < n then some d else none := by
  simp [alloc, read, List.getElem?_concat_length, List.getElem?_replicate]

/-- Freeing one block does not change reads of another. -/
theorem read_free_ne (h : Heap T) {p p' : Nat} (hne : p ≠ p') (j : Nat) :
    (h.free p).read p' j = h.read p' j := by
  simp [free, read, List.getElem?_set_ne hne]

/-- Reading a freed block yields `none`. -/
theorem read_free_self (h : Heap T) (p : Nat) (j : Nat) :
    (h.free p).read p j = none := by
  have hset : (h.blocks.set p none)[p]? =
      if p < h.blocks.length then some none else none := by
    simp [List.getElem?_set]
  rcases Nat.lt_or_ge p h.blocks.length with hl | hl
  · simp [free, read, hset, hl]
  · simp [free, read, hset, Nat.not_lt.mpr hl]

end Heap

namespace Heap

/-- Writing a live block keeps a live block of the same length at the same
pointer. -/
theorem blocks_write_self {h : Heap T} {p : Nat} {blk : List T}
    (hb : h.blocks[p]? = some (some blk)) (i : Nat) (v : T) :
    (h.write p i v).blocks[p]? = some (some (blk.set i v)) := by
  obtain ⟨hlt, _⟩ := List.getElem?_eq_some.mp hb
  simp [write, hb, List.getElem?_set_self hlt]

end Heap

namespace ConcurrentQueue

/-- Helper: under the queue invariant (`value < capacity_ ≤ SIZE_MAX`) the
sentinel branch of `safe_increment` is never taken, so it is plain
`(value + 1) % capacity_`. -/
theorem safe_increment_eq {capacity_ value : Nat} (hv : value < capacity_)
    (hc : capacity_ ≤ SIZE_MAX) :
    safe_increment capacity_ value = (value + 1) % capacity_ := by
  have hne : value ≠ SIZE_MAX := Nat.ne_of_lt (Nat.lt_of_lt_of_le hv hc)
  simp [safe_increment, hne]

/-- Distinct logical offsets below the capacity address distinct slots. -/
theorem slot_ne {n a b : Nat} (ha : a < n) (hb : b < n) (hab : a ≠ b) (c : Nat) :
    (c + a) % n ≠ (c + b) % n := by
  intro hmod
  have hm : Nat.ModEq n (c + a) (c + b) := hmod
  have h2 : a % n = b % n := Nat.ModEq.add_left_cancel' c hm
  rw [Nat.mod_eq_of_lt ha, Nat.mod_eq_of_lt hb] at h2
  exact hab h2

theorem Inv.cap_pos {h : Heap T} {q : ConcurrentQueue} (hinv : Inv h q) :
    0 < q.capacity_ :=
  Nat.lt_of_le_of_lt (Nat.zero_le _) hinv.1.1

/-- Successful construction, unfolded. -/
theorem construct_ok {h : Heap T} {d : T} {c : Nat} (hpos : 0 < c) :
    construct h d c =
      .ok ((h.alloc c d).1, ⟨h.blocks.length, c, 0, 0, c - 1⟩) := by
  simp [construct, Nat.pos_iff_ne_zero.mp hpos, Heap.alloc]

/-- A successful construction establishes the representation invariant with
empty abstract contents. -/
theorem construct_inv {h : Heap T} {d : T} {c : Nat} (hpos : 0 < c)
    (hmax : c ≤ SIZE_MAX) {h' : Heap T} {q : ConcurrentQueue}
    (heq : construct h d c = .ok (h', q)) :
    Inv h' q ∧ q.size_ = 0 ∧ q.capacity_ = c ∧ absList h' q = [] := by
  rw [construct_ok hpos] at heq
  simp only [Except.ok.injEq, Prod.mk.injEq] at heq
  obtain ⟨rfl, rfl⟩ := heq
  refine ⟨⟨⟨hpos, Nat.sub_lt hpos Nat.one_pos, Nat.zero_le _⟩, hmax, ?_, ?_⟩,
    rfl, rfl, by simp [absList]⟩
  · have h9 : 0 + 0 + c - 1 = c - 1 := by omega
    simp only [h9, Nat.mod_eq_of_lt (Nat.sub_lt hpos Nat.one_pos)]
  · exact ⟨List.replicate c d, by simp [Heap.alloc, List.getElem?_concat_length], by simp⟩

/-- A successful `push` unfolded: the new `back` is `(front + size_) % capacity_`
and the value goes into that slot. -/
theorem push_eq {h : Heap T} {q : ConcurrentQueue} (hinv : Inv h q)
    (hlt : q.size_ < q.capacity_) (v : T) :
    push h q v =
      (h.write q.items ((q.front + q.size_) % q.capacity_) v,
       ⟨q.items, q.capacity_, q.size_ + 1, q.front,
        (q.front + q.size_) % q.capacity_⟩, none) := by
  obtain ⟨⟨hf, hb, hs⟩, hmax, hrel, hown⟩ := hinv
  have hsafe : safe_increment q.capacity_ q.back = (q.back + 1) % q.capacity_ :=
    safe_increment_eq hb hmax
  have hback : (q.back + 1) % q.capacity_ = (q.front + q.size_) % q.capacity_ := by
    rw [hrel, Nat.mod_add_mod]
    have harith : q.front + q.size_ + q.capacity_ - 1 + 1
        = q.front + q.size_ + q.capacity_ := by omega
    rw [harith, Nat.add_mod_right]
  simp [push, Nat.ne_of_lt hlt, hsafe, hback]

/-- A successful `push` preserves the invariant and appends the value to the
abstract contents. -/
theorem push_inv {h : Heap T} {q : ConcurrentQueue} (hinv : Inv h q)
    (hlt : q.size_ < q.capacity_) (v : T) :
    Inv (push h q v).1 (push h q v).2.1 ∧
    absList (push h q v).1 (push h q v).2.1 = absList h q ++ [some v] := by
  obtain ⟨⟨hf, hb, hs⟩, hmax, hrel, blk, hblk, hlen⟩ := hinv
  have hcap : 0 < q.capacity_ := Nat.lt_of_le_of_lt (Nat.zero_le _) hf
  rw [push_eq ⟨⟨hf, hb, hs⟩, hmax, hrel, blk, hblk, hlen⟩ hlt v]
  dsimp only
  constructor
  · refine ⟨⟨hf, Nat.mod_lt _ hcap, by show q.size_ + 1 ≤ q.capacity_; omega⟩,
      hmax, ?_, ?_⟩
    · show (q.front + q.size_) % q.capacity_
        = (q.front + (q.size_ + 1) + q.capacity_ - 1) % q.capacity_
      have harith : q.front + (q.size_ + 1) + q.capacity_ - 1
          = q.front + q.size_ + q.capacity_ := by omega
      rw [harith, Nat.add_mod_right]
    · exact ⟨blk.set ((q.front + q.size_) % q.capacity_) v,
        Heap.blocks_write_self hblk _ v, by simp [hlen]⟩
  · show (List.range (q.size_ + 1)).map
        (fun i => (h.write q.items ((q.front + q.size_) % q.capacity_) v).read
          q.items ((q.front + i) % q.capacity_))
      = absList h q ++ [some v]
    rw [List.range_succ, List.map_append]
    congr 1
    · apply List.map_congr_left
      intro i hi
      have hilt : i < q.size_ := List.mem_range.mp hi
      exact Heap.read_write_self_ne h q.items v
        (Ne.symm (slot_ne (Nat.lt_of_lt_of_le hilt hs) hlt
          (Nat.ne_of_lt hilt) q.front))
    · simp only [List.map_cons, List.map_nil]
      congr 1
      exact Heap.read_write_self hblk
        (by rw [hlen]; exact Nat.mod_lt _ hcap) v

end ConcurrentQueue

namespace ConcurrentQueue

/-- A successful `pop` unfolded: it returns the value read at slot `front`,
leaves the heap untouched, advances `front` circularly and decrements
`size_`. -/
theorem pop_eq {h : Heap T} {q : ConcurrentQueue} (hinv : Inv h q)
    (hpos : 0 < q.size_) :
    pop h q = (h.read q.items q.front, h,
      ⟨q.items, q.capacity_, q.size_ - 1, (q.front + 1) % q.capacity_, q.back⟩,
      none) := by
  obtain ⟨⟨hf, hb, hs⟩, hmax, hrel, hown⟩ := hinv
  have hsafe : safe_increment q.capacity_ q.front = (q.front + 1) % q.capacity_ :=
    safe_increment_eq hf hmax
  simp [pop, Nat.pos_iff_ne_zero.mp hpos, hsafe]

/-- A successful `pop` preserves the invariant; the old abstract contents are
the returned front value followed by the new abstract contents. -/
theorem pop_inv {h : Heap T} {q : ConcurrentQueue} (hinv : Inv h q)
    (hpos : 0 < q.size_) :
    Inv h ⟨q.items, q.capacity_, q.size_ - 1, (q.front + 1) % q.capacity_, q.back⟩ ∧
    absList h q = h.read q.items q.front ::
      absList h ⟨q.items, q.capacity_, q.size_ - 1,
        (q.front + 1) % q.capacity_, q.back⟩ := by
  obtain ⟨⟨hf, hb, hs⟩, hmax, hrel, hown⟩ := hinv
  have hcap : 0 < q.capacity_ := Nat.lt_of_le_of_lt (Nat.zero_le _) hf
  constructor
  · refine ⟨⟨Nat.mod_lt _ hcap, hb, by show q.size_ - 1 ≤ q.capacity_; omega⟩,
      hmax, ?_, hown⟩
    show q.back = ((q.front + 1) % q.capacity_ + (q.size_ - 1) + q.capacity_ - 1)
      % q.capacity_
    have h1 : (q.front + 1) % q.capacity_ + (q.size_ - 1) + q.capacity_ - 1
        = (q.front + 1) % q.capacity_ + (q.size_ - 1 + q.capacity_ - 1) := by omega
    rw [h1, Nat.mod_add_mod]
    have h2 : q.front + 1 + (q.size_ - 1 + q.capacity_ - 1)
        = q.front + q.size_ + q.capacity_ - 1 := by omega
    rw [h2]
    exact hrel
  · obtain ⟨k, hk⟩ : ∃ k, q.size_ = k + 1 := ⟨q.size_ - 1, by omega⟩
    have hsub : q.size_ - 1 = k := by omega
    unfold absList
    dsimp only
    rw [hk, Nat.add_sub_cancel, List.range_succ_eq_map, List.map_cons,
      List.map_map]
    have hfront0 : (q.front + 0) % q.capacity_ = q.front := by
      rw [Nat.add_zero, Nat.mod_eq_of_lt hf]
    rw [hfront0]
    congr 1
    apply List.map_congr_left
    intro i _
    simp only [Function.comp_apply]
    rw [Nat.mod_add_mod]
    have h3 : q.front + i.succ = q.front + 1 + i := by omega
    rw [h3]

/-- `pushAll` on a queue with room for all the values: every push succeeds,
the invariant is preserved, and the values are appended in order to the
abstract contents. -/
theorem pushAll_spec (vs : List T) : ∀ (h : Heap T) (q : ConcurrentQueue),
    Inv h q → q.size_ + vs.length ≤ q.capacity_ →
    ∃ h' q', pushAll vs h q = (h', q', none) ∧ Inv h' q' ∧
      q'.items = q.items ∧ q'.capacity_ = q.capacity_ ∧
      q'.size_ = q.size_ + vs.length ∧
      absList h' q' = absList h q ++ vs.map some := by
  induction vs with
  | nil =>
    intro h q hinv _
    exact ⟨h, q, rfl, hinv, rfl, rfl, by simp, by simp⟩
  | cons v rest ih =>
    intro h q hinv hle
    have hlt : q.size_ < q.capacity_ := by
      simp only [List.length_cons] at hle; omega
    have hpe := push_eq hinv hlt v
    obtain ⟨hinv1, habs1⟩ := push_inv hinv hlt v
    rw [hpe] at hinv1 habs1
    dsimp only at hinv1 habs1
    obtain ⟨h', q', heq, hinv2, hitems2, hcap2, hsize2, habs2⟩ :=
      ih _ _ hinv1 (by
        show q.size_ + 1 + rest.length ≤ q.capacity_
        simp only [List.length_cons] at hle; omega)
    refine ⟨h', q', ?_, hinv2, hitems2, hcap2, ?_, ?_⟩
    · show pushAll (v :: rest) h q = (h', q', none)
      rw [pushAll, hpe]
      exact heq
    · show q'.size_ = q.size_ + (rest.length + 1)
      rw [hsize2]
      show q.size_ + 1 + rest.length = q.size_ + (rest.length + 1)
      omega
    · rw [habs2, habs1]
      simp

/-- `popAll` for `k` at most the current size: every pop succeeds, returning
the first `k` abstract values in order; the heap is untouched and the
remaining abstract contents are the rest. -/
theorem popAll_spec (k : Nat) : ∀ (h : Heap T) (q : ConcurrentQueue),
    Inv h q → k ≤ q.size_ →
    ∃ q', popAll h q k =
        (((absList h q).take k).map (fun o => (o, (none : Option CppError))),
         h, q') ∧
      Inv h q' ∧ q'.size_ = q.size_ - k ∧
      absList h q' = (absList h q).drop k := by
  induction k with
  | zero =>
    intro h q hinv _
    exact ⟨q, by simp [popAll], hinv, by simp, by simp⟩
  | succ k ih =>
    intro h q hinv hle
    have hpos : 0 < q.size_ := by omega
    have hpe := pop_eq hinv hpos
    obtain ⟨hinv1, hdecomp⟩ := pop_inv hinv hpos
    obtain ⟨q', heq, hinv2, hsz, habs⟩ := ih h _ hinv1 (by
      show k ≤ q.size_ - 1
      omega)
    refine ⟨q', ?_, hinv2, ?_, ?_⟩
    · show popAll h q (k + 1) = _
      rw [popAll, hpe]
      dsimp only
      rw [heq, hdecomp]
      simp
    · show q'.size_ = q.size_ - (k + 1)
      rw [hsz]
      show q.size_ - 1 - k = q.size_ - (k + 1)
      omega
    · rw [habs, hdecomp]
      simp

/-- `push` never changes which block the queue owns. -/
theorem push_items_eq (h : Heap T) (q : ConcurrentQueue) (v : T) :
    (push h q v).2.1.items = q.items := by
  unfold push; split <;> rfl

/-- `pop` never changes which block the queue owns. -/
theorem pop_items_eq (h : Heap T) (q : ConcurrentQueue) :
    (pop h q).2.2.1.items = q.items := by
  unfold pop; split <;> rfl

/-- `pop` never touches the heap. -/
theorem pop_heap_eq (h : Heap T) (q : ConcurrentQueue) :
    (pop h q).2.1 = h := by
  unfold pop; split <;> rfl

/-- `push` only ever writes into the queue's own block. -/
theorem push_read_frame (h : Heap T) (q : ConcurrentQueue) (v : T) {p : Nat}
    (hne : q.items ≠ p) (j : Nat) :
    (push h q v).1.read p j = h.read p j := by
  unfold push
  split
  · rfl
  · exact Heap.read_write_ne h _ j v hne

/-- Running any sequence of pushes and pops on a queue leaves every other
block of the heap unchanged. -/
theorem runOps_read_frame (ops : List (QOp T)) : ∀ (h : Heap T)
    (q : ConcurrentQueue) {p : Nat}, q.items ≠ p → ∀ j,
    (runOps ops h q).1.read p j = h.read p j := by
  induction ops with
  | nil => intros; rfl
  | cons op rest ih =>
    intro h q p hne j
    cases op with
    | push v =>
      show (runOps rest (push h q v).1 (push h q v).2.1).1.read p j = h.read p j
      rw [ih _ _ (by rw [push_items_eq]; exact hne) j]
      exact push_read_frame h q v hne j
    | pop =>
      show (runOps rest (pop h q).2.1 (pop h q).2.2.1).1.read p j = h.read p j
      rw [ih _ _ (by rw [pop_items_eq]; exact hne) j]
      rw [pop_heap_eq]

/-- The copy loop writes only into its destination block. -/
theorem copyLoop_read_frame (h : Heap T) (dst src : Nat) (n : Nat) {p : Nat}
    (hne : dst ≠ p) (j : Nat) :
    (copyLoop h dst src n).read p j = h.read p j := by
  induction n with
  | zero => rfl
  | succ n ih =>
    show (match (copyLoop h dst src n).read src n with
      | some v => (copyLoop h dst src n).write dst n v
      | none => copyLoop h dst src n).read p j = h.read p j
    cases hret : (copyLoop h dst src n).read src n with
    | none => simpa using ih
    | some v =>
      simp only
      rw [Heap.read_write_ne _ _ _ _ hne]
      exact ih

/-- If every read of a queue's block agrees between two heaps, everything
observable of the queue agrees. -/
theorem observ_congr {h h' : Heap T} {A : ConcurrentQueue}
    (hr : ∀ j, h'.read A.items j = h.read A.items j) :
    observ h' A = observ h A := by
  unfold observ peek_front peek_back absList
  simp [hr]

/-- C5: the circular-increment helper `safe_increment` is observationally
equal to the pure function `index ↦ (index + 1) % capacity`: for every index
in `[0, capacity)` (the queue invariant; capacity is a `size_t`), the
sentinel comparison against the maximum representable value `SIZE_MAX` has
no effect on the result. -/
theorem safe_increment_is_mod (capacity_ index : Nat)
    (hidx : index < capacity_) (hmax : capacity_ ≤ SIZE_MAX) :
    safe_increment capacity_ index = (index + 1) % capacity_ := by
  have hne : index ≠ SIZE_MAX := Nat.ne_of_lt (Nat.lt_of_lt_of_le hidx hmax)
  simp [safe_increment, hne]

/-- Witness for C5: the helper at capacity 3, index 2 (the wraparound step). -/
theorem safe_increment_is_mod_witness :
    safe_increment 3 2 = (2 + 1) % 3 :=
  safe_increment_is_mod 3 2 (by decide) (by decide)

/-- C3: `push` fails with the `Full` error exactly when `size_ = capacity_`,
and on that failure nothing changes — the heap (so the value is not stored)
and every field are returned untouched; when `size_ ≠ capacity_` it advances
`back` to `(back + 1) % capacity_`, writes the value into that slot, and
increments `size_`, throwing nothing. -/
theorem push_full_check (h : Heap T) (q : ConcurrentQueue) (v : T)
    (hinv : BInv q) (hmax : q.capacity_ ≤ SIZE_MAX) :
    (q.size_ = q.capacity_ → push h q v = (h, q, some fullError)) ∧
    (q.size_ ≠ q.capacity_ →
      push h q v =
        (h.write q.items ((q.back + 1) % q.capacity_) v,
         ⟨q.items, q.capacity_, q.size_ + 1, q.front,
          (q.back + 1) % q.capacity_⟩, none)) := by
  constructor
  · intro hfull
    simp [push, hfull]
  · intro hne
    have hsafe := safe_increment_eq hinv.2.1 hmax
    simp [push, hne, hsafe]

/-- Witness for C3: a capacity-2 queue holding one element accepts a push
into slot `(back + 1) % 2 = 1` and, once full, a capacity-2 queue with two
elements rejects one. -/
theorem push_full_check_witness :
    push (⟨[some [0, 0]]⟩ : Heap Nat) ⟨0, 2, 1, 0, 0⟩ 5
      = (Heap.write ⟨[some [0, 0]]⟩ 0 1 5, ⟨0, 2, 2, 0, 1⟩, none) ∧
    push (⟨[some [3, 5]]⟩ : Heap Nat) ⟨0, 2, 2, 0, 1⟩ 9
      = (⟨[some [3, 5]]⟩, ⟨0, 2, 2, 0, 1⟩, some fullError) := by
  constructor
  · have hc := (push_full_check (⟨[some [0, 0]]⟩ : Heap Nat) ⟨0, 2, 1, 0, 0⟩ 5
      (by decide) (by decide)).2 (by decide)
    rw [hc]
    decide
  · have hc := (push_full_check (⟨[some [3, 5]]⟩ : Heap Nat) ⟨0, 2, 2, 0, 1⟩ 9
      (by decide) (by decide)).1 (by decide)
    rw [hc]

/-- C10: frame property of a successful `pop` (`size_ > 0`): it returns the
value stored at slot `front`, the heap — every slot of every block,
including the slot just dequeued — is returned completely unchanged (so the
popped value physically remains in its slot until some later write reaches
it), `items`, `capacity_` and `back` keep their values, and only `front`
(advanced circularly) and `size_` (decremented) change; no error is
thrown. -/
theorem pop_frame_effect (h : Heap T) (q : ConcurrentQueue)
    (hpos : 0 < q.size_) (hfr : q.front < q.capacity_)
    (hmax : q.capacity_ ≤ SIZE_MAX) :
    pop h q = (h.read q.items q.front, h,
      ⟨q.items, q.capacity_, q.size_ - 1, (q.front + 1) % q.capacity_, q.back⟩,
      none) := by
  have hsafe := safe_increment_eq hfr hmax
  simp [pop, Nat.pos_iff_ne_zero.mp hpos, hsafe]

/-- Witness for C10: popping a capacity-1 queue holding 7 returns 7, leaves
the heap (still holding 7 in slot 0) untouched, and only rewinds `front` and
`size_`. -/
theorem pop_frame_effect_witness :
    pop (⟨[some [7]]⟩ : Heap Nat) ⟨0, 1, 1, 0, 0⟩
      = (some 7, ⟨[some [7]]⟩, ⟨0, 1, 0, 0, 0⟩, none) := by
  have hc := pop_frame_effect (⟨[some [7]]⟩ : Heap Nat) ⟨0, 1, 1, 0, 0⟩
    (by decide) (by decide) (by decide)
  rw [hc]
  decide

/-- C8: construction with capacity 0 always fails with `InvalidCapacity`;
construction with any capacity ≥ 1 always succeeds and yields a queue with
`size() = 0` and `capacity()` equal to the requested capacity. -/
theorem construct_zero_or_valid (h : Heap T) (d : T) (c : Nat) :
    (c = 0 → construct h d c = .error invalidCapacityError) ∧
    (1 ≤ c → ∃ h' q, construct h d c = .ok (h', q) ∧
      size q = 0 ∧ capacity q = c) := by
  constructor
  · intro h0
    simp [construct, h0]
  · intro h1
    exact ⟨(h.alloc c d).1, ⟨h.blocks.length, c, 0, 0, c - 1⟩,
      construct_ok h1, rfl, rfl⟩

/-- Witness for C8: capacity 0 is rejected; capacity 2 yields an empty
queue of capacity 2. -/
theorem construct_zero_or_valid_witness :
    construct (Heap.init : Heap Nat) 0 0 = .error invalidCapacityError ∧
    ∃ h' q, construct (Heap.init : Heap Nat) 0 2 = .ok (h', q) ∧
      size q = 0 ∧ capacity q = 2 :=
  ⟨(construct_zero_or_valid Heap.init 0 0).1 rfl,
   (construct_zero_or_valid Heap.init 0 2).2 (by decide)⟩

/-- C2 counterexample: on a freshly constructed — hence empty, `count = 0` —
capacity-1 queue, `peek_front` and `peek_back` do NOT fail with the `Empty`
error: the source has no emptiness check in either peek (unlike `pop`), so
both return the (default-initialised) contents of their slot instead of
throwing. This refutes the claim that all three of `pop`/`peek_front`/
`peek_back` fail with `Empty` whenever `count = 0`. -/
theorem peeks_empty_counterexample :
    construct (Heap.init : Heap Nat) 0 1 = .ok (⟨[some [0]]⟩, ⟨0, 1, 0, 0, 0⟩) ∧
    size ⟨0, 1, 0, 0, 0⟩ = 0 ∧
    peek_front (⟨[some [0]]⟩ : Heap Nat) ⟨0, 1, 0, 0, 0⟩ = some 0 ∧
    peek_back (⟨[some [0]]⟩ : Heap Nat) ⟨0, 1, 0, 0, 0⟩ = some 0 :=
  ⟨rfl, rfl, rfl, rfl⟩

/-- C2 amended: `pop` fails with the `Empty` error exactly when `size_ = 0`
(the state being returned untouched), and succeeds — returning the front
slot's element with no error — whenever `size_ > 0`; `peek_front` and
`peek_back`, however, perform no emptiness check at all: each returns the
raw read of slot `front`/`back`, entirely independent of `size_` (in
particular neither fails on an empty queue). -/
theorem pop_empty_and_unchecked_peeks (h : Heap T) (q : ConcurrentQueue) :
    (q.size_ = 0 → pop h q = (none, h, q, some emptyError)) ∧
    (0 < q.size_ →
      (pop h q).2.2.2 = none ∧ (pop h q).1 = h.read q.items q.front) ∧
    (∀ n : Nat, peek_front h ⟨q.items, q.capacity_, n, q.front, q.back⟩
        = h.read q.items q.front) ∧
    (∀ n : Nat, peek_back h ⟨q.items, q.capacity_, n, q.front, q.back⟩
        = h.read q.items q.back) := by
  refine ⟨?_, ?_, fun n => rfl, fun n => rfl⟩
  · intro h0
    simp [pop, h0]
  · intro hpos
    simp [pop, Nat.pos_iff_ne_zero.mp hpos]

/-- Witness for the amended C2: an empty capacity-1 queue's `pop` throws
`Empty` and changes nothing; on the same queue holding one element, `pop`
succeeds and returns it. -/
theorem pop_empty_and_unchecked_peeks_witness :
    pop (⟨[some [0]]⟩ : Heap Nat) ⟨0, 1, 0, 0, 0⟩
      = (none, ⟨[some [0]]⟩, ⟨0, 1, 0, 0, 0⟩, some emptyError) ∧
    ((pop (⟨[some [7]]⟩ : Heap Nat) ⟨0, 1, 1, 0, 0⟩).2.2.2 = none ∧
     (pop (⟨[some [7]]⟩ : Heap Nat) ⟨0, 1, 1, 0, 0⟩).1
       = Heap.read ⟨[some [7]]⟩ 0 0) :=
  ⟨(pop_empty_and_unchecked_peeks ⟨[some [0]]⟩ ⟨0, 1, 0, 0, 0⟩).1 rfl,
   (pop_empty_and_unchecked_peeks ⟨[some [7]]⟩ ⟨0, 1, 1, 0, 0⟩).2.1 (by decide)⟩

/-- C4: the code diverges from the claim; evaluated on a capacity-1 queue
holding the single element 7 (at heap block 0).  After the move
CONSTRUCTOR, the moved-from source still reports `capacity_ = 1` and
`size_ = 1` — not the claimed empty, zero-capacity state — while its `items`
pointer dangles: its block has been freed (`delete [] queue.items`), so
reading through the source yields nothing, and the source's destructor
would free it a second time.  (The move constructor is also not an O(1)
pointer transfer: per `moveConstruct` it allocates a fresh block and copies
element by element via `copyLoop`.)  After move ASSIGNMENT the moved-from
source still holds the very pointer the destination now owns — it aliases
the destination's storage, against the claim. -/
theorem move_source_not_reset :
    ((moveConstruct (⟨[some [7]]⟩ : Heap Nat) 0 ⟨0, 1, 1, 0, 0⟩).2.2.capacity_ = 1 ∧
     (moveConstruct (⟨[some [7]]⟩ : Heap Nat) 0 ⟨0, 1, 1, 0, 0⟩).2.2.size_ = 1 ∧
     Heap.read (moveConstruct (⟨[some [7]]⟩ : Heap Nat) 0 ⟨0, 1, 1, 0, 0⟩).1
       (moveConstruct (⟨[some [7]]⟩ : Heap Nat) 0 ⟨0, 1, 1, 0, 0⟩).2.2.items 0
       = none) ∧
    (moveAssign (⟨[some [7], some [0]]⟩ : Heap Nat) ⟨1, 1, 0, 0, 0⟩
        ⟨0, 1, 1, 0, 0⟩).2.1.items
      = (moveAssign (⟨[some [7], some [0]]⟩ : Heap Nat) ⟨1, 1, 0, 0, 0⟩
        ⟨0, 1, 1, 0, 0⟩).2.2.items :=
  ⟨⟨rfl, rfl, rfl⟩, rfl⟩

/-- C6: the bounds invariant — `front` and `back` in `[0, capacity_)` and
`0 ≤ size_ ≤ capacity_` — is established by (successful) construction and
preserved by every operation: `push` and `pop` (whether they throw or
succeed), copy construction, copy assignment, and move construction and
move assignment (for the destination and for the moved-from source alike);
`size`/`capacity`/`empty`/`full`/`peek_front`/`peek_back` do not modify the
state at all, so they preserve it trivially. -/
theorem state_invariant (d : T) :
    (∀ (h h' : Heap T) (c : Nat) (q : ConcurrentQueue),
        construct h d c = .ok (h', q) → BInv q) ∧
    (∀ (h : Heap T) (q : ConcurrentQueue) (v : T),
        BInv q → BInv (push h q v).2.1) ∧
    (∀ (h : Heap T) (q : ConcurrentQueue), BInv q → BInv (pop h q).2.2.1) ∧
    (∀ (h : Heap T) (q : ConcurrentQueue), BInv q →
        BInv (copyConstruct h d q).2) ∧
    (∀ (h : Heap T) (this q : ConcurrentQueue), BInv q →
        BInv (copyAssign h d this q).2) ∧
    (∀ (h : Heap T) (q : ConcurrentQueue), BInv q →
        BInv (moveConstruct h d q).2.1 ∧ BInv (moveConstruct h d q).2.2) ∧
    (∀ (h : Heap T) (this q : ConcurrentQueue), BInv q →
        BInv (moveAssign h this q).2.1 ∧ BInv (moveAssign h this q).2.2) := by
  refine ⟨?_, ?_, ?_, fun h q hq => hq, fun h this q hq => hq,
    fun h q hq => ⟨hq, hq⟩, fun h this q hq => ⟨hq, hq⟩⟩
  · intro h h' c q heq
    by_cases hc : c = 0
    · simp [construct, hc, invalidCapacityError] at heq
    · rw [construct_ok (Nat.pos_of_ne_zero hc)] at heq
      simp only [Except.ok.injEq, Prod.mk.injEq] at heq
      obtain ⟨-, rfl⟩ := heq
      have hcpos := Nat.pos_of_ne_zero hc
      exact ⟨hcpos, Nat.sub_lt hcpos Nat.one_pos, Nat.zero_le _⟩
  · rintro h q v ⟨hf, hb, hs⟩
    have hcap : 0 < q.capacity_ := Nat.lt_of_le_of_lt (Nat.zero_le _) hf
    unfold push
    split
    · exact ⟨hf, hb, hs⟩
    · next hne =>
      refine ⟨hf, ?_, ?_⟩
      · show safe_increment q.capacity_ q.back < q.capacity_
        exact Nat.mod_lt _ hcap
      · show q.size_ + 1 ≤ q.capacity_
        omega
  · rintro h q ⟨hf, hb, hs⟩
    have hcap : 0 < q.capacity_ := Nat.lt_of_le_of_lt (Nat.zero_le _) hf
    unfold pop
    split
    · exact ⟨hf, hb, hs⟩
    · refine ⟨?_, hb, ?_⟩
      · show safe_increment q.capacity_ q.front < q.capacity_
        exact Nat.mod_lt _ hcap
      · show q.size_ - 1 ≤ q.capacity_
        omega

/-- Witness for C6: the invariant concretely holds after constructing a
capacity-2 queue, pushing onto it, popping a one-element queue, and for
both halves of a move construction. -/
theorem state_invariant_witness :
    BInv (push (⟨[some [0, 0]]⟩ : Heap Nat) ⟨0, 2, 0, 0, 1⟩ 4).2.1 ∧
    BInv (pop (⟨[some [7]]⟩ : Heap Nat) ⟨0, 1, 1, 0, 0⟩).2.2.1 ∧
    BInv (moveConstruct (⟨[some [7]]⟩ : Heap Nat) 0 ⟨0, 1, 1, 0, 0⟩).2.1 :=
  ⟨(state_invariant (0 : Nat)).2.1 ⟨[some [0, 0]]⟩ ⟨0, 2, 0, 0, 1⟩ 4 (by decide),
   (state_invariant (0 : Nat)).2.2.1 ⟨[some [7]]⟩ ⟨0, 1, 1, 0, 0⟩ (by decide),
   ((state_invariant (0 : Nat)).2.2.2.2.2.1 ⟨[some [7]]⟩ ⟨0, 1, 1, 0, 0⟩
     (by decide)).1⟩

/-- C1: FIFO order — construct a fresh queue of any valid capacity `c`
(`0 < c ≤ SIZE_MAX`), push the values `v1, …, vk` (`k ≤ c`) with no
intervening pops — every push succeeds — then pop `k` times: every pop
succeeds and returns `v1, …, vk` in exactly that order. -/
theorem fifo_order (d : T) (c : Nat) (vs : List T) (hc : 0 < c)
    (hmax : c ≤ SIZE_MAX) (hlen : vs.length ≤ c) :
    ∃ h0 q0 h1 q1, construct Heap.init d c = .ok (h0, q0) ∧
      pushAll vs h0 q0 = (h1, q1, none) ∧
      (popAll h1 q1 vs.length).1 = vs.map (fun v => (some v, none)) := by
  have hcon : construct (Heap.init : Heap T) d c =
      .ok (((Heap.init : Heap T).alloc c d).1,
        ⟨(Heap.init : Heap T).blocks.length, c, 0, 0, c - 1⟩) :=
    construct_ok hc
  obtain ⟨hinv0, hsz0, hcap0, habs0⟩ := construct_inv hc hmax hcon
  obtain ⟨h1, q1, hpush, hinv1, -, hcap1, hsz1, habs1⟩ :=
    pushAll_spec vs _ _ hinv0 (by rw [hsz0, hcap0]; omega)
  obtain ⟨q2, hpop, -, -, -⟩ :=
    popAll_spec vs.length h1 q1 hinv1 (by rw [hsz1, hsz0]; omega)
  refine ⟨_, _, h1, q1, hcon, hpush, ?_⟩
  rw [hpop]
  dsimp only
  rw [habs1, habs0]
  simp [List.map_map, Function.comp_def]

/-- Witness for C1: capacity 3, pushing 1, 2, 3 then popping three times
returns 1, 2, 3 in order. -/
theorem fifo_order_witness :
    ∃ h0 q0 h1 q1, construct Heap.init (0 : Nat) 3 = .ok (h0, q0) ∧
      pushAll [1, 2, 3] h0 q0 = (h1, q1, none) ∧
      (popAll h1 q1 ([1, 2, 3] : List Nat).length).1
        = [1, 2, 3].map (fun v => (some v, none)) :=
  fifo_order 0 3 [1, 2, 3] (by decide) (by decide) (by decide)

/-- C7: capacity boundary — construct a fresh queue of valid capacity `c`
and push exactly `c` values (all succeed, no pops). Then `full()` is true
and any further push fails with `Full`, changing nothing. After popping one
element (which succeeds), exactly one more push succeeds, and the push
after that fails with `Full` again. -/
theorem capacity_boundary (d : T) (c : Nat) (vs : List T) (hc : 0 < c)
    (hmax : c ≤ SIZE_MAX) (hlen : vs.length = c) :
    ∃ h0 q0 h1 q1, construct Heap.init d c = .ok (h0, q0) ∧
      pushAll vs h0 q0 = (h1, q1, none) ∧
      full q1 = true ∧
      (∀ w : T, push h1 q1 w = (h1, q1, some fullError)) ∧
      (pop h1 q1).2.2.2 = none ∧
      (∀ w : T, (push (pop h1 q1).2.1 (pop h1 q1).2.2.1 w).2.2 = none ∧
        ∀ w' : T,
          (push (push (pop h1 q1).2.1 (pop h1 q1).2.2.1 w).1
              (push (pop h1 q1).2.1 (pop h1 q1).2.2.1 w).2.1 w').2.2
            = some fullError) := by
  have hcon : construct (Heap.init : Heap T) d c =
      .ok (((Heap.init : Heap T).alloc c d).1,
        ⟨(Heap.init : Heap T).blocks.length, c, 0, 0, c - 1⟩) :=
    construct_ok hc
  obtain ⟨hinv0, hsz0, hcap0, habs0⟩ := construct_inv hc hmax hcon
  obtain ⟨h1, q1, hpush, hinv1, -, hcap1, hsz1, habs1⟩ :=
    pushAll_spec vs _ _ hinv0 (by rw [hsz0, hcap0]; omega)
  have hfull : q1.size_ = q1.capacity_ := by
    rw [hsz1, hsz0, hcap1, hcap0]; omega
  have hpos1 : 0 < q1.size_ := by
    rw [hsz1, hsz0]; omega
  have hpe := pop_eq hinv1 hpos1
  obtain ⟨hinv2, -⟩ := pop_inv hinv1 hpos1
  have hlt2 : q1.size_ - 1 < q1.capacity_ := by omega
  refine ⟨_, _, h1, q1, hcon, hpush, ?_, ?_, ?_, ?_⟩
  · simp [full, hfull]
  · intro w
    simp [push, hfull]
  · rw [hpe]
  · intro w
    rw [hpe]
    dsimp only
    rw [push_eq hinv2 hlt2 w]
    dsimp only
    refine ⟨rfl, fun w' => ?_⟩
    have hsz3 : q1.size_ - 1 + 1 = q1.capacity_ := by omega
    simp [push, hsz3]

/-- Witness for C7: capacity 2, pushing 1, 2 fills the queue; a third push
fails `Full`; after one pop a push succeeds and the next fails again. -/
theorem capacity_boundary_witness :
    ∃ h0 q0 h1 q1, construct Heap.init (0 : Nat) 2 = .ok (h0, q0) ∧
      pushAll [1, 2] h0 q0 = (h1, q1, none) ∧
      full q1 = true ∧
      (∀ w : Nat, push h1 q1 w = (h1, q1, some fullError)) ∧
      (pop h1 q1).2.2.2 = none ∧
      (∀ w : Nat, (push (pop h1 q1).2.1 (pop h1 q1).2.2.1 w).2.2 = none ∧
        ∀ w' : Nat,
          (push (push (pop h1 q1).2.1 (pop h1 q1).2.2.1 w).1
              (push (pop h1 q1).2.1 (pop h1 q1).2.2.1 w).2.1 w').2.2
            = some fullError) :=
  capacity_boundary 0 2 [1, 2] (by decide) (by decide) (by decide)

/-- C9: copy independence — after copy-constructing a queue `A` into a new
object `B`, or copy-assigning `A` onto an existing object `B0`, the
resulting object owns a storage block distinct from `A`'s, and an arbitrary
subsequent sequence of pushes and pops on either queue leaves everything
observable of the other — `size()`, `capacity()`, `peek_front()`,
`peek_back()`, and its entire FIFO contents (hence all its future pop
results) — unchanged; the copy operation itself also leaves `A`'s
observables intact.  Hypotheses: `A.items < h.blocks.length` says `A`'s
pointer is a real allocation, and `B0.items ≠ A.items` says the assigned-to
object does not share `A`'s storage (distinct live C++ objects never do). -/
theorem copy_independence (h : Heap T) (d : T) (A B0 : ConcurrentQueue)
    (hA : A.items < h.blocks.length) (hB0 : B0.items ≠ A.items) :
    ((copyConstruct h d A).2.items ≠ A.items ∧
     observ (copyConstruct h d A).1 A = observ h A ∧
     (∀ ops : List (QOp T),
        observ (runOps ops (copyConstruct h d A).1 (copyConstruct h d A).2).1 A
          = observ (copyConstruct h d A).1 A) ∧
     (∀ ops : List (QOp T),
        observ (runOps ops (copyConstruct h d A).1 A).1 (copyConstruct h d A).2
          = observ (copyConstruct h d A).1 (copyConstruct h d A).2)) ∧
    ((copyAssign h d B0 A).2.items ≠ A.items ∧
     observ (copyAssign h d B0 A).1 A = observ h A ∧
     (∀ ops : List (QOp T),
        observ (runOps ops (copyAssign h d B0 A).1 (copyAssign h d B0 A).2).1 A
          = observ (copyAssign h d B0 A).1 A) ∧
     (∀ ops : List (QOp T),
        observ (runOps ops (copyAssign h d B0 A).1 A).1 (copyAssign h d B0 A).2
          = observ (copyAssign h d B0 A).1 (copyAssign h d B0 A).2)) := by
  have hBc : (copyConstruct h d A).2.items = h.blocks.length := rfl
  have hBa : (copyAssign h d B0 A).2.items = h.blocks.length := by
    show (h.free B0.items).blocks.length = h.blocks.length
    exact Heap.length_free h B0.items
  have hnec : (copyConstruct h d A).2.items ≠ A.items := by
    rw [hBc]; omega
  have hnea : (copyAssign h d B0 A).2.items ≠ A.items := by
    rw [hBa]; omega
  refine ⟨⟨hnec, observ_congr fun j => ?_,
      fun ops => observ_congr fun j => runOps_read_frame ops _ _ hnec j,
      fun ops => observ_congr fun j => runOps_read_frame ops _ _ ?_ j⟩,
    ⟨hnea, observ_congr fun j => ?_,
      fun ops => observ_congr fun j => runOps_read_frame ops _ _ hnea j,
      fun ops => observ_congr fun j => runOps_read_frame ops _ _ ?_ j⟩⟩
  · show (copyLoop ((h.alloc A.capacity_ d).1) h.blocks.length A.items
        A.capacity_).read A.items j = h.read A.items j
    rw [copyLoop_read_frame _ _ _ _ (by omega) j]
    exact Heap.read_alloc_old h A.capacity_ d hA j
  · exact fun e => hnec e.symm
  · show (copyLoop (((h.free B0.items).alloc A.capacity_ d).1)
        (h.free B0.items).blocks.length A.items A.capacity_).read A.items j
      = h.read A.items j
    rw [copyLoop_read_frame _ _ _ _ (by rw [Heap.length_free]; omega) j]
    rw [Heap.read_alloc_old _ A.capacity_ d (by rw [Heap.length_free]; exact hA) j]
    exact Heap.read_free_ne h hB0 j
  · exact fun e => hnea e.symm

/-- Witness for C9: a capacity-1 queue holding 5 at block 0; the copy lives
at block 1; pushing and popping on the copy leaves the original's
observables unchanged. -/
theorem copy_independence_witness :
    (copyConstruct (⟨[some [5]]⟩ : Heap Nat) 0 ⟨0, 1, 1, 0, 0⟩).2.items
      ≠ (⟨0, 1, 1, 0, 0⟩ : ConcurrentQueue).items ∧
    observ (runOps [QOp.pop, QOp.push 9]
        (copyConstruct (⟨[some [5]]⟩ : Heap Nat) 0 ⟨0, 1, 1, 0, 0⟩).1
        (copyConstruct (⟨[some [5]]⟩ : Heap Nat) 0 ⟨0, 1, 1, 0, 0⟩).2).1
      ⟨0, 1, 1, 0, 0⟩
      = observ (copyConstruct (⟨[some [5]]⟩ : Heap Nat) 0 ⟨0, 1, 1, 0, 0⟩).1
        ⟨0, 1, 1, 0, 0⟩ :=
  ⟨(copy_independence ⟨[some [5]]⟩ 0 ⟨0, 1, 1, 0, 0⟩ ⟨1, 1, 0, 0, 0⟩
      (by decide) (by decide)).1.1,
   (copy_independence ⟨[some [5]]⟩ 0 ⟨0, 1, 1, 0, 0⟩ ⟨1, 1, 0, 0, 0⟩
      (by decide) (by decide)).1.2.2.1 [QOp.pop, QOp.push 9]⟩

end ConcurrentQueue
